import Mathlib

/-!
Shallow embedding of `ShenandoahRootProcessor::update_all_roots`
(src/hotspot/share/gc/shenandoah/shenandoahRootProcessor.inline.hpp) and of the
collaborators it calls.  The function is modelled as a trace-producing state
transformer over the shared claim table: every externally observable action
(filter construction, scoped-timer open/close, visitor entry, per-candidate
visitor invocation) is an event in the trace, and concurrent workers are
modelled as an arbitrary serialisation of their atomic claim operations.
-/

namespace Shenandoah

/-- Object references are abstracted as natural numbers. -/
abbrev Ref := Nat

/-- Timing-phase tags: `ShenandoahPhaseTimings::JNIWeakRoots` for the weak branch,
and one tag per strong-root subtask index for `process_all_roots`. -/
inductive Phase where
  | JNIWeakRoots : Phase
  | strongPhase (idx : Nat) : Phase
deriving DecidableEq, Repr

/-- Observable events emitted by a root-processing call.  `fid` identifies the
liveness-filter instance passed to a collaborator; `worker` is the worker id. -/
inductive Event where
  /-- construction of the `IsAlive` liveness-filter instance (`IsAlive is_alive;`) -/
  | mkFilter (fid : Nat) (worker : Nat) : Event
  /-- scoped `ShenandoahWorkerTimingsTracker` opens the (phase, worker) timing cell -/
  | timerStart (ph : Phase) (worker : Nat) : Event
  /-- scoped `ShenandoahWorkerTimingsTracker` closes and writes the (phase, worker) cell -/
  | timerEnd (ph : Phase) (worker : Nat) : Event
  /-- entry into `WeakProcessor::weak_oops_do(&is_alive, oops)` -/
  | weakCall (fid : Nat) (worker : Nat) : Event
  /-- the `oops` visitor applied to a live weak-table candidate -/
  | visitWeak (fid : Nat) (worker : Nat) (r : Ref) : Event
  /-- entry into `process_all_roots` -/
  | strongCall (worker : Nat) : Event
  /-- the category visitor of strong-root subtask `idx` runs on this worker -/
  | visitStrong (idx : Nat) (worker : Nat) : Event
  /-- entry into `ShenandoahStringDedup::parallel_oops_do(&is_alive, oops, worker_id)` -/
  | dedupCall (fid : Nat) (worker : Nat) : Event
  /-- the `oops` visitor applied to a live dedup-table candidate in this worker's partition -/
  | visitDedup (fid : Nat) (worker : Nat) (r : Ref) : Event
deriving DecidableEq, Repr

/-- The per-phase environment: the collaborators' data that `update_all_roots`
consumes.  `alive` is the behaviour of the `IsAlive` closure type (every fresh
instance of the same template parameter computes the same predicate). -/
structure Env where
  dedupEnabled : Bool
  weakTable : List Ref
  dedupTable : List Ref
  alive : Ref → Bool
  strongTasks : List Nat
  workerCount : Nat

/-- Shared claim-table state of the phase's `SubTasksDone` instance: the set of
already-claimed subtask indices, initially empty. -/
structure ClaimState where
  claimed : List Nat
deriving DecidableEq, Repr

def ClaimState.init : ClaimState := ⟨[]⟩

/-- The weak-handle-roots subtask index (`SHENANDOAH_RP_PS_JNIHandles_weak_oops_do`). -/
def SHENANDOAH_RP_PS_JNIHandles_weak_oops_do : Nat := 0

/-- Modelled from the spec: the claim primitive `SubTasksDone::is_task_claimed`
(gc/shared/workgroup.hpp, not under src/).  Per spec 4.1 it atomically grants the
subtask to exactly one caller: it returns `true` when the index was already
claimed, and otherwise claims it and returns `false`. -/
def is_task_claimed (st : ClaimState) (idx : Nat) : Bool × ClaimState :=
  if idx ∈ st.claimed then (true, st) else (false, ⟨idx :: st.claimed⟩)

/-- Modelled from the spec: `WeakProcessor::weak_oops_do`
(gc/shared/weakProcessor.hpp, not under src/).  Per spec 6 and 8 it is the single
entry point over the weak-handle root table, invoking the object-reference
visitor only on candidates the liveness filter reports alive. -/
def weak_oops_do (env : Env) (fid worker : Nat) : List Event :=
  Event.weakCall fid worker ::
    (env.weakTable.filter env.alive).map (fun r => Event.visitWeak fid worker r)

/-- Modelled from the spec: the claim-try loop of
`ShenandoahRootProcessor::process_all_roots` (shenandoahRootProcessor.cpp, not
under src/).  Per spec 4.2: for each strong-root subtask index in the catalog,
try to claim it; on success open a scoped timing record for (that subtask's
phase, worker) around the category visitor; on failure skip with no side
effect. -/
def strong_tasks_do (env : Env) (worker : Nat) :
    ClaimState → List Nat → ClaimState × List Event
  | st, [] => (st, [])
  | st, idx :: rest =>
      let c := is_task_claimed st idx
      if c.1 then strong_tasks_do env worker c.2 rest
      else
        let tail := strong_tasks_do env worker c.2 rest
        (tail.1,
         Event.timerStart (Phase.strongPhase idx) worker ::
           Event.visitStrong idx worker ::
             Event.timerEnd (Phase.strongPhase idx) worker :: tail.2)

/-- Modelled from the spec: `ShenandoahRootProcessor::process_all_roots`
(shenandoahRootProcessor.cpp, not under src/): attempt every strong-root
subtask of the catalog via the claim loop. -/
def process_all_roots (env : Env) (worker : Nat) (st : ClaimState) :
    ClaimState × List Event :=
  let r := strong_tasks_do env worker st env.strongTasks
  (r.1, Event.strongCall worker :: r.2)

/-- Modelled from the spec: `ShenandoahStringDedup::parallel_oops_do`
(shenandoahStringDedup, not under src/).  Per spec 4.3 and 6 it is a
worker-partitioned parallel iteration over the deduplication table (each worker
processes a disjoint partition), invoking the object-reference visitor only on
candidates the liveness filter reports alive. -/
def parallel_oops_do (env : Env) (fid worker : Nat) : List Event :=
  Event.dedupCall fid worker ::
    (((env.dedupTable.enum.filter
          (fun p => p.1 % env.workerCount == worker)).map Prod.snd).filter
        env.alive).map (fun r => Event.visitDedup fid worker r)

/-- `ShenandoahRootProcessor::update_all_roots` translated from
shenandoahRootProcessor.inline.hpp lines 31-50: construct `IsAlive is_alive;`
(the fresh filter instance `fid`); if the weak-roots subtask claim succeeds,
open the scoped `ShenandoahWorkerTimingsTracker` for (JNIWeakRoots, worker_id)
around `WeakProcessor::weak_oops_do(&is_alive, oops)`; then call
`process_all_roots`; then, if `ShenandoahStringDedup::is_enabled()`, call
`ShenandoahStringDedup::parallel_oops_do(&is_alive, oops, worker_id)`. -/
def update_all_roots (env : Env) (worker_id fid : Nat) (st : ClaimState) :
    ClaimState × List Event :=
  let mk := [Event.mkFilter fid worker_id]
  let claim := is_task_claimed st SHENANDOAH_RP_PS_JNIHandles_weak_oops_do
  let weakEvts :=
    if claim.1 then []
    else
      Event.timerStart Phase.JNIWeakRoots worker_id ::
        weak_oops_do env fid worker_id ++ [Event.timerEnd Phase.JNIWeakRoots worker_id]
  let strong := process_all_roots env worker_id claim.2
  let dedupEvts := if env.dedupEnabled then parallel_oops_do env fid worker_id else []
  (strong.1, mk ++ weakEvts ++ strong.2 ++ dedupEvts)

/-- One phase instance: each listed worker calls `update_all_roots` exactly once
against the shared claim table, in the given serialisation order; the filter
instance of worker `w`'s call is tagged `w`. -/
def runPhaseAux (env : Env) : ClaimState → List Nat → ClaimState × List Event
  | st, [] => (st, [])
  | st, w :: ws =>
      let step := update_all_roots env w w st
      let rest := runPhaseAux env step.1 ws
      (rest.1, step.2 ++ rest.2)

def runPhase (env : Env) (workers : List Nat) : ClaimState × List Event :=
  runPhaseAux env ClaimState.init workers

/-! ### Observable-event classifiers -/

/-- the weak-handle-root visitor (`WeakProcessor::weak_oops_do`) entry -/
def isWeakCall : Event → Bool
  | .weakCall _ _ => true
  | _ => false

/-- the deduplication-table pass (`parallel_oops_do`) entry -/
def isDedupCall : Event → Bool
  | .dedupCall _ _ => true
  | _ => false

def isMkFilter : Event → Bool
  | .mkFilter _ _ => true
  | _ => false

/-- a per-candidate `oops` invocation from the deduplication pass -/
def isVisitDedup : Event → Bool
  | .visitDedup _ _ _ => true
  | _ => false

/-- a write to a timing-table cell (open or close of a scoped tracker) -/
def isTimerWrite : Event → Bool
  | .timerStart _ _ => true
  | .timerEnd _ _ => true
  | _ => false

/-- a timing event on the weak-roots (`JNIWeakRoots`) cell -/
def isJNIWeakTimer : Event → Bool
  | .timerStart Phase.JNIWeakRoots _ => true
  | .timerEnd Phase.JNIWeakRoots _ => true
  | _ => false

/-- any visitor activity: entry into or per-candidate invocation of the weak,
strong-category or deduplication visitors -/
def isVisit : Event → Bool
  | .weakCall _ _ => true
  | .visitWeak _ _ _ => true
  | .visitStrong _ _ => true
  | .dedupCall _ _ => true
  | .visitDedup _ _ _ => true
  | _ => false

/-- visitor activity of the claim-gated subtasks (weak and strong roots) -/
def isClaimGatedVisit : Event → Bool
  | .weakCall _ _ => true
  | .visitWeak _ _ _ => true
  | .visitStrong _ _ => true
  | _ => false

/-- any event produced by `process_all_roots` -/
def isStrongEvent : Event → Bool
  | .strongCall _ => true
  | .visitStrong _ _ => true
  | .timerStart (Phase.strongPhase _) _ => true
  | .timerEnd (Phase.strongPhase _) _ => true
  | _ => false

/-- any event produced by the deduplication pass -/
def isDedupEvent : Event → Bool
  | .dedupCall _ _ => true
  | .visitDedup _ _ _ => true
  | _ => false

/-- the liveness-filter instance an event carries, when it carries one -/
def fidOf : Event → Option Nat
  | .mkFilter f _ => some f
  | .weakCall f _ => some f
  | .visitWeak f _ _ => some f
  | .dedupCall f _ => some f
  | .visitDedup f _ _ => some f
  | _ => none

/-- The spec-side reference program for the already-claimed weak-roots case:
construct the liveness filter, run `process_all_roots` with the same arguments,
then run the deduplication pass (with that filter) when deduplication is
enabled — no weak-root work, no weak-root timing. -/
def skip_weak_run (env : Env) (worker_id fid : Nat) (st : ClaimState) :
    ClaimState × List Event :=
  let mk := [Event.mkFilter fid worker_id]
  let strong := process_all_roots env worker_id st
  let dedupEvts := if env.dedupEnabled then parallel_oops_do env fid worker_id else []
  (strong.1, mk ++ strong.2 ++ dedupEvts)

/-- A small concrete phase environment used to exercise the theorems on
concrete inputs: two weak-table entries (one dead), three dedup-table entries,
four strong-root subtasks, two workers. -/
def envA : Env :=
  { dedupEnabled := true
    weakTable := [10, 11]
    dedupTable := [20, 21, 22]
    alive := fun r => r != 11
    strongTasks := [1, 2, 3, 4]
    workerCount := 2 }

/-- A concrete environment with deduplication enabled and a one-entry dedup
table whose partition belongs to worker 0. -/
def envC5 : Env :=
  { dedupEnabled := true
    weakTable := []
    dedupTable := [7]
    alive := fun _ => true
    strongTasks := [1]
    workerCount := 1 }

/-- A claim state in which the weak-roots subtask (index 0) and strong subtask 1
are already claimed by other workers. -/
def stAllClaimed : ClaimState := ⟨[0, 1]⟩

/-! ### Basic lemmas about the claim primitive -/

theorem is_task_claimed_mono (st : ClaimState) (i j : Nat) (h : j ∈ st.claimed) :
    j ∈ ((is_task_claimed st i).2).claimed := by
  unfold is_task_claimed
  split <;> simp [h]

theorem is_task_claimed_self (st : ClaimState) (i : Nat) :
    i ∈ ((is_task_claimed st i).2).claimed := by
  unfold is_task_claimed
  split <;> simp_all

theorem is_task_claimed_of_claimed (st : ClaimState) (i : Nat) (h : i ∈ st.claimed) :
    is_task_claimed st i = (true, st) := by
  unfold is_task_claimed
  simp [h]

theorem is_task_claimed_of_unclaimed (st : ClaimState) (i : Nat) (h : i ∉ st.claimed) :
    is_task_claimed st i = (false, ⟨i :: st.claimed⟩) := by
  unfold is_task_claimed
  simp [h]

/-! ### Shape of the events each collaborator emits -/

theorem mem_weak_oops_do (env : Env) (fid w : Nat) (e : Event)
    (h : e ∈ weak_oops_do env fid w) :
    e = Event.weakCall fid w ∨ ∃ r, e = Event.visitWeak fid w r ∧ env.alive r = true := by
  unfold weak_oops_do at h
  rcases List.mem_cons.1 h with h | h
  · exact Or.inl h
  · right
    rcases List.mem_map.1 h with ⟨r, hr, he⟩
    exact ⟨r, he.symm, (List.mem_filter.1 hr).2⟩

theorem mem_parallel_oops_do (env : Env) (fid w : Nat) (e : Event)
    (h : e ∈ parallel_oops_do env fid w) :
    e = Event.dedupCall fid w ∨ ∃ r, e = Event.visitDedup fid w r ∧ env.alive r = true := by
  unfold parallel_oops_do at h
  rcases List.mem_cons.1 h with h | h
  · exact Or.inl h
  · right
    rcases List.mem_map.1 h with ⟨r, hr, he⟩
    exact ⟨r, he.symm, (List.mem_filter.1 hr).2⟩

theorem mem_strong_tasks_do (env : Env) (w : Nat) :
    ∀ (l : List Nat) (st : ClaimState) (e : Event),
      e ∈ (strong_tasks_do env w st l).2 →
      ∃ idx, e = Event.timerStart (Phase.strongPhase idx) w
        ∨ e = Event.visitStrong idx w
        ∨ e = Event.timerEnd (Phase.strongPhase idx) w := by
  intro l
  induction l with
  | nil => intro st e h; simp [strong_tasks_do] at h
  | cons idx rest ih =>
      intro st e h
      by_cases hc : idx ∈ st.claimed
      · simp only [strong_tasks_do, is_task_claimed_of_claimed st idx hc,
          eq_self_iff_true, if_true] at h
        exact ih st e h
      · simp only [strong_tasks_do, is_task_claimed_of_unclaimed st idx hc,
          Bool.false_eq_true, if_false, List.mem_cons] at h
        rcases h with h | h | h | h
        · exact ⟨idx, Or.inl h⟩
        · exact ⟨idx, Or.inr (Or.inl h)⟩
        · exact ⟨idx, Or.inr (Or.inr h)⟩
        · exact ih _ e h

theorem mem_process_all_roots (env : Env) (w : Nat) (st : ClaimState) (e : Event)
    (h : e ∈ (process_all_roots env w st).2) :
    e = Event.strongCall w
    ∨ ∃ idx, e = Event.timerStart (Phase.strongPhase idx) w
        ∨ e = Event.visitStrong idx w
        ∨ e = Event.timerEnd (Phase.strongPhase idx) w := by
  unfold process_all_roots at h
  rcases List.mem_cons.1 h with h | h
  · exact Or.inl h
  · exact Or.inr (mem_strong_tasks_do env w env.strongTasks st e h)

theorem mem_process_all_roots_isStrong (env : Env) (w : Nat) (st : ClaimState) (e : Event)
    (h : e ∈ (process_all_roots env w st).2) : isStrongEvent e = true := by
  rcases mem_process_all_roots env w st e h with h1 | ⟨idx, h1 | h1 | h1⟩ <;>
    simp [h1, isStrongEvent]

theorem isStrongEvent_classifiers (e : Event) (h : isStrongEvent e = true) :
    isWeakCall e = false ∧ isDedupCall e = false ∧ isVisitDedup e = false ∧
    isMkFilter e = false ∧ isJNIWeakTimer e = false ∧ isDedupEvent e = false ∧
    fidOf e = none := by
  cases e <;> try (rename_i ph w0; cases ph)
  all_goals simp_all [isStrongEvent, isWeakCall, isDedupCall, isVisitDedup, isMkFilter,
    isJNIWeakTimer, isDedupEvent, fidOf]

/-! ### Claim-state monotonicity: a claimed index stays claimed -/

theorem strong_tasks_do_mono (env : Env) (w : Nat) :
    ∀ (l : List Nat) (st : ClaimState) (j : Nat), j ∈ st.claimed →
      j ∈ ((strong_tasks_do env w st l).1).claimed := by
  intro l
  induction l with
  | nil => intro st j h; simpa [strong_tasks_do] using h
  | cons idx rest ih =>
      intro st j h
      by_cases hc : idx ∈ st.claimed
      · simp only [strong_tasks_do, is_task_claimed_of_claimed st idx hc,
          eq_self_iff_true, if_true]
        exact ih st j h
      · simp only [strong_tasks_do, is_task_claimed_of_unclaimed st idx hc,
          Bool.false_eq_true, if_false]
        exact ih ⟨idx :: st.claimed⟩ j (List.mem_cons_of_mem idx h)

theorem process_all_roots_mono (env : Env) (w : Nat) (st : ClaimState) (j : Nat)
    (h : j ∈ st.claimed) : j ∈ ((process_all_roots env w st).1).claimed :=
  strong_tasks_do_mono env w env.strongTasks st j h

theorem update_all_roots_state (env : Env) (w fid : Nat) (st : ClaimState) :
    (update_all_roots env w fid st).1 =
      (process_all_roots env w
        (is_task_claimed st SHENANDOAH_RP_PS_JNIHandles_weak_oops_do).2).1 := rfl

theorem update_all_roots_weak_claimed (env : Env) (w fid : Nat) (st : ClaimState) :
    SHENANDOAH_RP_PS_JNIHandles_weak_oops_do ∈
      ((update_all_roots env w fid st).1).claimed := by
  rw [update_all_roots_state]
  exact process_all_roots_mono env w _ _
    (is_task_claimed_self st SHENANDOAH_RP_PS_JNIHandles_weak_oops_do)

/-! ### The trace of one `update_all_roots` call, decomposed -/

theorem update_all_roots_eq (env : Env) (w fid : Nat) (st : ClaimState) :
    update_all_roots env w fid st =
      ((process_all_roots env w
          (is_task_claimed st SHENANDOAH_RP_PS_JNIHandles_weak_oops_do).2).1,
       Event.mkFilter fid w ::
         ((if (is_task_claimed st SHENANDOAH_RP_PS_JNIHandles_weak_oops_do).1
             then ([] : List Event)
             else Event.timerStart Phase.JNIWeakRoots w ::
               weak_oops_do env fid w ++ [Event.timerEnd Phase.JNIWeakRoots w])
          ++ (process_all_roots env w
                (is_task_claimed st SHENANDOAH_RP_PS_JNIHandles_weak_oops_do).2).2
          ++ (if env.dedupEnabled then parallel_oops_do env fid w else []))) := rfl

/-! ### Filter characterisations of trace segments -/

theorem filter_weak_oops_do_eq_nil (env : Env) (fid w : Nat) (p : Event → Bool)
    (h1 : p (Event.weakCall fid w) = false)
    (h2 : ∀ r, p (Event.visitWeak fid w r) = false) :
    (weak_oops_do env fid w).filter p = [] := by
  rw [List.filter_eq_nil_iff]
  intro e he
  rcases mem_weak_oops_do env fid w e he with h | ⟨r, h, _⟩ <;> simp [h, h1, h2]

theorem filter_parallel_oops_do_eq_nil (env : Env) (fid w : Nat) (p : Event → Bool)
    (h1 : p (Event.dedupCall fid w) = false)
    (h2 : ∀ r, p (Event.visitDedup fid w r) = false) :
    (parallel_oops_do env fid w).filter p = [] := by
  rw [List.filter_eq_nil_iff]
  intro e he
  rcases mem_parallel_oops_do env fid w e he with h | ⟨r, h, _⟩ <;> simp [h, h1, h2]

theorem filter_process_all_roots_eq_nil (env : Env) (w : Nat) (st : ClaimState)
    (p : Event → Bool) (h : ∀ e, isStrongEvent e = true → p e = false) :
    ((process_all_roots env w st).2).filter p = [] := by
  rw [List.filter_eq_nil_iff]
  intro e he
  simp [h e (mem_process_all_roots_isStrong env w st e he)]

theorem filter_weak_oops_do_weakCall (env : Env) (fid w : Nat) :
    (weak_oops_do env fid w).filter isWeakCall = [Event.weakCall fid w] := by
  unfold weak_oops_do
  have h : ((env.weakTable.filter env.alive).map
      fun r => Event.visitWeak fid w r).filter isWeakCall = [] := by
    rw [List.filter_eq_nil_iff]
    intro e he
    rcases List.mem_map.1 he with ⟨r, _, rfl⟩
    simp [isWeakCall]
  simp [List.filter_cons, isWeakCall, h]

theorem filter_weak_branch_eq_nil (env : Env) (fid w : Nat) (b : Bool) (p : Event → Bool)
    (ht1 : p (Event.timerStart Phase.JNIWeakRoots w) = false)
    (ht2 : p (Event.timerEnd Phase.JNIWeakRoots w) = false)
    (h1 : p (Event.weakCall fid w) = false)
    (h2 : ∀ r, p (Event.visitWeak fid w r) = false) :
    ((if b then ([] : List Event)
      else Event.timerStart Phase.JNIWeakRoots w ::
        weak_oops_do env fid w ++ [Event.timerEnd Phase.JNIWeakRoots w])).filter p
      = [] := by
  split
  · rfl
  · simp [List.filter_cons, List.filter_append, ht1, ht2,
      filter_weak_oops_do_eq_nil env fid w p h1 h2]

theorem filter_dedup_branch_eq_nil (env : Env) (fid w : Nat) (b : Bool) (p : Event → Bool)
    (h1 : p (Event.dedupCall fid w) = false)
    (h2 : ∀ r, p (Event.visitDedup fid w r) = false) :
    ((if b then parallel_oops_do env fid w else [])).filter p = [] := by
  split
  · exact filter_parallel_oops_do_eq_nil env fid w p h1 h2
  · rfl

theorem filter_parallel_oops_do_self (env : Env) (fid w : Nat) :
    (parallel_oops_do env fid w).filter isDedupEvent = parallel_oops_do env fid w := by
  rw [List.filter_eq_self]
  intro e he
  rcases mem_parallel_oops_do env fid w e he with h | ⟨r, h, _⟩ <;> simp [h, isDedupEvent]

theorem filter_parallel_oops_do_dedupCall (env : Env) (fid w : Nat) :
    (parallel_oops_do env fid w).filter isDedupCall = [Event.dedupCall fid w] := by
  unfold parallel_oops_do
  have h : ((((env.dedupTable.enum.filter
        (fun p => p.1 % env.workerCount == w)).map Prod.snd).filter
      env.alive).map (fun r => Event.visitDedup fid w r)).filter isDedupCall = [] := by
    rw [List.filter_eq_nil_iff]
    intro e he
    rcases List.mem_map.1 he with ⟨r, _, rfl⟩
    simp [isDedupCall]
  simp [List.filter_cons, isDedupCall, h]

theorem strong_tasks_do_all_claimed (env : Env) (w : Nat) :
    ∀ (l : List Nat) (st : ClaimState), (∀ i ∈ l, i ∈ st.claimed) →
      strong_tasks_do env w st l = (st, []) := by
  intro l
  induction l with
  | nil => intro st _; rfl
  | cons idx rest ih =>
      intro st h
      have hc : idx ∈ st.claimed := h idx (List.mem_cons_self idx rest)
      simp only [strong_tasks_do, is_task_claimed_of_claimed st idx hc,
        eq_self_iff_true, if_true]
      exact ih st (fun i hi => h i (List.mem_cons_of_mem idx hi))

theorem process_all_roots_all_claimed (env : Env) (w : Nat) (st : ClaimState)
    (h : ∀ i ∈ env.strongTasks, i ∈ st.claimed) :
    process_all_roots env w st = (st, [Event.strongCall w]) := by
  unfold process_all_roots
  rw [strong_tasks_do_all_claimed env w env.strongTasks st h]

theorem strong_tasks_do_state_worker_indep (env : Env) (w1 w2 : Nat) :
    ∀ (l : List Nat) (st : ClaimState),
      (strong_tasks_do env w1 st l).1 = (strong_tasks_do env w2 st l).1 := by
  intro l
  induction l with
  | nil => intro st; rfl
  | cons idx rest ih =>
      intro st
      by_cases hc : idx ∈ st.claimed
      · simp only [strong_tasks_do, is_task_claimed_of_claimed st idx hc,
          eq_self_iff_true, if_true]
        exact ih st
      · simp only [strong_tasks_do, is_task_claimed_of_unclaimed st idx hc,
          Bool.false_eq_true, if_false]
        exact ih ⟨idx :: st.claimed⟩

theorem mem_update_all_roots (env : Env) (w fid : Nat) (st : ClaimState) (e : Event)
    (h : e ∈ (update_all_roots env w fid st).2) :
    e = Event.mkFilter fid w
    ∨ e = Event.timerStart Phase.JNIWeakRoots w
    ∨ e = Event.timerEnd Phase.JNIWeakRoots w
    ∨ e ∈ weak_oops_do env fid w
    ∨ isStrongEvent e = true
    ∨ e ∈ parallel_oops_do env fid w := by
  rw [update_all_roots_eq] at h
  rcases List.mem_cons.1 h with h | h
  · exact Or.inl h
  rcases List.mem_append.1 h with h | h
  · rcases List.mem_append.1 h with h | h
    · split at h
      · simp at h
      · rcases List.mem_cons.1 h with h | h
        · exact Or.inr (Or.inl h)
        rcases List.mem_append.1 h with h | h
        · exact Or.inr (Or.inr (Or.inr (Or.inl h)))
        · simp only [List.mem_singleton] at h
          exact Or.inr (Or.inr (Or.inl h))
    · exact Or.inr (Or.inr (Or.inr (Or.inr (Or.inl
        (mem_process_all_roots_isStrong env w _ e h)))))
  · split at h
    · exact Or.inr (Or.inr (Or.inr (Or.inr (Or.inr h))))
    · simp at h

theorem strongCall_mem_update (env : Env) (w fid : Nat) (st : ClaimState) :
    Event.strongCall w ∈ (update_all_roots env w fid st).2 := by
  rw [update_all_roots_eq]
  refine List.mem_cons_of_mem _ (List.mem_append_left _ (List.mem_append_right _ ?_))
  exact List.mem_cons_self _ _

theorem update_filter_weakCall (env : Env) (w fid : Nat) (st : ClaimState) :
    ((update_all_roots env w fid st).2).filter isWeakCall =
      if SHENANDOAH_RP_PS_JNIHandles_weak_oops_do ∈ st.claimed then []
      else [Event.weakCall fid w] := by
  have hp : ∀ st' : ClaimState,
      ((process_all_roots env w st').2).filter isWeakCall = [] := fun st' =>
    filter_process_all_roots_eq_nil env w st' _
      (fun e he => (isStrongEvent_classifiers e he).1)
  have hd : ∀ b : Bool,
      ((if b then parallel_oops_do env fid w else [])).filter isWeakCall = [] := fun b =>
    filter_dedup_branch_eq_nil env fid w b _ rfl (fun _ => rfl)
  rw [update_all_roots_eq]
  by_cases hc : SHENANDOAH_RP_PS_JNIHandles_weak_oops_do ∈ st.claimed
  · rw [is_task_claimed_of_claimed _ _ hc]
    simp [List.filter_append, List.filter_cons, isWeakCall, hp, hd, hc]
  · rw [is_task_claimed_of_unclaimed _ _ hc]
    simp [List.filter_append, List.filter_cons, isWeakCall, hp, hd, hc,
      filter_weak_oops_do_weakCall]

theorem runPhaseAux_no_weakCall_of_claimed (env : Env) :
    ∀ (ws : List Nat) (st : ClaimState),
      SHENANDOAH_RP_PS_JNIHandles_weak_oops_do ∈ st.claimed →
      ((runPhaseAux env st ws).2).filter isWeakCall = [] := by
  intro ws
  induction ws with
  | nil => intro st _; rfl
  | cons w rest ih =>
      intro st h
      simp only [runPhaseAux, List.filter_append]
      rw [update_filter_weakCall, if_pos h,
        ih _ (update_all_roots_weak_claimed env w w st)]
      rfl

/-! ### The claims -/

/-- Claim C1: in one phase instance where every listed worker calls
`update_all_roots` exactly once, the weak-handle-root visitor
(`WeakProcessor::weak_oops_do`) is invoked by exactly one worker's call — never
by two, and never by zero when at least one worker runs: the phase trace
contains exactly one `weakCall` event, attributed to the first worker to run. -/
theorem C1_weak_visitor_exactly_once (env : Env) (w : Nat) (ws : List Nat) :
    ((runPhase env (w :: ws)).2).filter isWeakCall = [Event.weakCall w w] := by
  unfold runPhase
  simp only [runPhaseAux, List.filter_append]
  rw [update_filter_weakCall, if_neg (by simp [ClaimState.init]),
    runPhaseAux_no_weakCall_of_claimed env ws _
      (update_all_roots_weak_claimed env w w ClaimState.init)]
  rfl

/-- Claim C2: every `update_all_roots` call (1) constructs one liveness-filter
instance first, (2) attempts exactly one claim of the weak-handle-roots subtask
and on success brackets the weak-handle-root visitor between the open and close
of a timing record for (JNIWeakRoots, worker_id), (3) then delegates to
`process_all_roots`, and (4) appends the deduplication-table pass if and only
if string deduplication is enabled. -/
theorem C2_update_all_roots_order (env : Env) (w fid : Nat) (st : ClaimState) :
    ∃ weakSeg strongSeg dedupSeg : List Event,
      (update_all_roots env w fid st).2
          = Event.mkFilter fid w :: (weakSeg ++ strongSeg ++ dedupSeg)
        ∧ (if (is_task_claimed st SHENANDOAH_RP_PS_JNIHandles_weak_oops_do).1
             then weakSeg = []
             else weakSeg = Event.timerStart Phase.JNIWeakRoots w ::
               weak_oops_do env fid w ++ [Event.timerEnd Phase.JNIWeakRoots w])
        ∧ strongSeg = (process_all_roots env w
            (is_task_claimed st SHENANDOAH_RP_PS_JNIHandles_weak_oops_do).2).2
        ∧ dedupSeg = (if env.dedupEnabled then parallel_oops_do env fid w else []) := by
  refine ⟨(if (is_task_claimed st SHENANDOAH_RP_PS_JNIHandles_weak_oops_do).1
             then ([] : List Event)
             else Event.timerStart Phase.JNIWeakRoots w ::
               weak_oops_do env fid w ++ [Event.timerEnd Phase.JNIWeakRoots w]),
          _, _, ?_, ?_, rfl, rfl⟩
  · exact congrArg Prod.snd (update_all_roots_eq env w fid st)
  · split <;> rfl

/-- Claim C3: when the weak-root claim fails (the subtask is already claimed),
`update_all_roots` neither invokes the weak-handle-root visitor nor writes any
weak-roots timing record, yet still executes `process_all_roots` in that same
call. -/
theorem C3_claim_failure_frame (env : Env) (w fid : Nat) (st : ClaimState)
    (h : SHENANDOAH_RP_PS_JNIHandles_weak_oops_do ∈ st.claimed) :
    ((update_all_roots env w fid st).2).filter isWeakCall = []
    ∧ ((update_all_roots env w fid st).2).filter isJNIWeakTimer = []
    ∧ Event.strongCall w ∈ (update_all_roots env w fid st).2 := by
  refine ⟨?_, ?_, strongCall_mem_update env w fid st⟩
  · rw [update_filter_weakCall, if_pos h]
  · have hp : ∀ st' : ClaimState,
        ((process_all_roots env w st').2).filter isJNIWeakTimer = [] := fun st' =>
      filter_process_all_roots_eq_nil env w st' _
        (fun e he => (isStrongEvent_classifiers e he).2.2.2.2.1)
    have hd : ((if env.dedupEnabled then parallel_oops_do env fid w
        else [])).filter isJNIWeakTimer = [] :=
      filter_dedup_branch_eq_nil env fid w _ _ rfl (fun _ => rfl)
    rw [update_all_roots_eq, is_task_claimed_of_claimed _ _ h]
    simp [List.filter_append, List.filter_cons, isJNIWeakTimer, hp, hd]

/-- Concrete check of claim C3: with the weak-roots subtask already claimed,
worker 1's call emits no weak-visitor event and no weak-roots timing event but
still enters strong-root processing. -/
theorem C3_claim_failure_frame_witness :
    SHENANDOAH_RP_PS_JNIHandles_weak_oops_do ∈ stAllClaimed.claimed
    ∧ (((update_all_roots envA 1 7 stAllClaimed).2).filter isWeakCall = []
       ∧ ((update_all_roots envA 1 7 stAllClaimed).2).filter isJNIWeakTimer = []
       ∧ Event.strongCall 1 ∈ (update_all_roots envA 1 7 stAllClaimed).2) :=
  ⟨by decide, C3_claim_failure_frame envA 1 7 stAllClaimed (by decide)⟩

/-- Claim C4: when string deduplication is disabled, no call to
`update_all_roots` emits any deduplication-pass event (zero dedup visitor
invocations); when it is enabled, every calling worker performs exactly one
deduplication-table pass, entered with the call's liveness filter and its own
worker id. -/
theorem C4_dedup_gate (env : Env) (w fid : Nat) (st : ClaimState) :
    ((update_all_roots env w fid st).2).filter isDedupEvent
        = (if env.dedupEnabled then parallel_oops_do env fid w else [])
    ∧ ((update_all_roots env w fid st).2).filter isDedupCall
        = (if env.dedupEnabled then [Event.dedupCall fid w] else []) := by
  have hw1 : ((if (is_task_claimed st SHENANDOAH_RP_PS_JNIHandles_weak_oops_do).1
      then ([] : List Event)
      else Event.timerStart Phase.JNIWeakRoots w ::
        weak_oops_do env fid w ++
          [Event.timerEnd Phase.JNIWeakRoots w])).filter isDedupEvent = [] :=
    filter_weak_branch_eq_nil env fid w _ _ rfl rfl rfl (fun _ => rfl)
  have hw2 : ((if (is_task_claimed st SHENANDOAH_RP_PS_JNIHandles_weak_oops_do).1
      then ([] : List Event)
      else Event.timerStart Phase.JNIWeakRoots w ::
        weak_oops_do env fid w ++
          [Event.timerEnd Phase.JNIWeakRoots w])).filter isDedupCall = [] :=
    filter_weak_branch_eq_nil env fid w _ _ rfl rfl rfl (fun _ => rfl)
  have hp1 : ∀ st' : ClaimState,
      ((process_all_roots env w st').2).filter isDedupEvent = [] := fun st' =>
    filter_process_all_roots_eq_nil env w st' _
      (fun e he => (isStrongEvent_classifiers e he).2.2.2.2.2.1)
  have hp2 : ∀ st' : ClaimState,
      ((process_all_roots env w st').2).filter isDedupCall = [] := fun st' =>
    filter_process_all_roots_eq_nil env w st' _
      (fun e he => (isStrongEvent_classifiers e he).2.1)
  rw [update_all_roots_eq]
  constructor
  · simp only [List.filter_cons, List.filter_append, hw1, hp1]
    by_cases hde : env.dedupEnabled
    · simp [hde, isDedupEvent, filter_parallel_oops_do_self]
    · simp [hde, isDedupEvent]
  · simp only [List.filter_cons, List.filter_append, hw2, hp2]
    by_cases hde : env.dedupEnabled
    · simp [hde, isDedupCall, filter_parallel_oops_do_dedupCall]
    · simp [hde, isDedupCall]

/-- Counterexample to claim C5 as stated: deduplication is enabled, worker 0
has lost every claim race (the weak subtask and every strong subtask are
already claimed), and yet its call still performs a visitor invocation — the
self-partitioning deduplication pass visits entry 7 of the dedup table. -/
theorem C5_counterexample :
    SHENANDOAH_RP_PS_JNIHandles_weak_oops_do ∈ stAllClaimed.claimed
    ∧ (∀ i ∈ envC5.strongTasks, i ∈ stAllClaimed.claimed)
    ∧ ((update_all_roots envC5 0 0 stAllClaimed).2).filter isVisit ≠ [] := by
  decide

/-- Claim C5 (amended): a worker whose call loses every claim race performs
zero weak- or strong-root visitor invocations and zero timing-table writes for
that phase; its only remaining visitor activity is the claim-independent
deduplication pass, so when deduplication is disabled it performs zero visitor
invocations of any kind. -/
theorem C5_amended_idempotent_skip (env : Env) (w fid : Nat) (st : ClaimState)
    (hweak : SHENANDOAH_RP_PS_JNIHandles_weak_oops_do ∈ st.claimed)
    (hstrong : ∀ i ∈ env.strongTasks, i ∈ st.claimed) :
    ((update_all_roots env w fid st).2).filter isClaimGatedVisit = []
    ∧ ((update_all_roots env w fid st).2).filter isTimerWrite = []
    ∧ (env.dedupEnabled = false →
        ((update_all_roots env w fid st).2).filter isVisit = []) := by
  have hproc : process_all_roots env w st = (st, [Event.strongCall w]) :=
    process_all_roots_all_claimed env w st hstrong
  rw [update_all_roots_eq, is_task_claimed_of_claimed _ _ hweak]
  have hd1 : ((if env.dedupEnabled then parallel_oops_do env fid w
      else [])).filter isClaimGatedVisit = [] :=
    filter_dedup_branch_eq_nil env fid w _ _ rfl (fun _ => rfl)
  have hd2 : ((if env.dedupEnabled then parallel_oops_do env fid w
      else [])).filter isTimerWrite = [] :=
    filter_dedup_branch_eq_nil env fid w _ _ rfl (fun _ => rfl)
  refine ⟨?_, ?_, ?_⟩
  · simp [List.filter_cons, List.filter_append, hproc, hd1,
      isClaimGatedVisit]
  · simp [List.filter_cons, List.filter_append, hproc, hd2, isTimerWrite]
  · intro hde
    simp [List.filter_cons, List.filter_append, hproc, hde, isVisit]

/-- Concrete check of amended claim C5: worker 2 loses every claim in `envC5`
and performs no claim-gated visit and no timing write. -/
theorem C5_amended_idempotent_skip_witness :
    SHENANDOAH_RP_PS_JNIHandles_weak_oops_do ∈ stAllClaimed.claimed
    ∧ (∀ i ∈ envC5.strongTasks, i ∈ stAllClaimed.claimed)
    ∧ (((update_all_roots envC5 2 5 stAllClaimed).2).filter isClaimGatedVisit = []
       ∧ ((update_all_roots envC5 2 5 stAllClaimed).2).filter isTimerWrite = []
       ∧ (envC5.dedupEnabled = false →
           ((update_all_roots envC5 2 5 stAllClaimed).2).filter isVisit = [])) :=
  ⟨by decide, by decide,
    C5_amended_idempotent_skip envC5 2 5 stAllClaimed (by decide) (by decide)⟩

/-- Claim C6: each `update_all_roots` call constructs exactly one
liveness-filter instance, and that same instance is the one carried by every
filter-consuming event of the call — the weak-handle-root visitor entry, its
per-candidate visits, the deduplication-pass entry and its per-candidate
visits. -/
theorem C6_single_filter_instance (env : Env) (w fid : Nat) (st : ClaimState) :
    ((update_all_roots env w fid st).2).filter isMkFilter = [Event.mkFilter fid w]
    ∧ ∀ e ∈ (update_all_roots env w fid st).2, ∀ f, fidOf e = some f → f = fid := by
  constructor
  · have hw : ((if (is_task_claimed st SHENANDOAH_RP_PS_JNIHandles_weak_oops_do).1
        then ([] : List Event)
        else Event.timerStart Phase.JNIWeakRoots w ::
          weak_oops_do env fid w ++
            [Event.timerEnd Phase.JNIWeakRoots w])).filter isMkFilter = [] :=
      filter_weak_branch_eq_nil env fid w _ _ rfl rfl rfl (fun _ => rfl)
    have hp : ∀ st' : ClaimState,
        ((process_all_roots env w st').2).filter isMkFilter = [] := fun st' =>
      filter_process_all_roots_eq_nil env w st' _
        (fun e he => (isStrongEvent_classifiers e he).2.2.2.1)
    have hd : ((if env.dedupEnabled then parallel_oops_do env fid w
        else [])).filter isMkFilter = [] :=
      filter_dedup_branch_eq_nil env fid w _ _ rfl (fun _ => rfl)
    rw [update_all_roots_eq]
    simp only [List.filter_cons, List.filter_append, hw, hp, hd]
    rfl
  · intro e he f hf
    rcases mem_update_all_roots env w fid st e he with h | h | h | h | h | h
    · rw [h] at hf
      simpa [fidOf] using hf.symm
    · rw [h] at hf
      simp [fidOf] at hf
    · rw [h] at hf
      simp [fidOf] at hf
    · rcases mem_weak_oops_do env fid w e h with h1 | ⟨r, h1, _⟩ <;>
        · rw [h1] at hf
          simpa [fidOf] using hf.symm
    · rw [(isStrongEvent_classifiers e h).2.2.2.2.2.2] at hf
      simp at hf
    · rcases mem_parallel_oops_do env fid w e h with h1 | ⟨r, h1, _⟩ <;>
        · rw [h1] at hf
          simpa [fidOf] using hf.symm

/-- Claim C7: the weak-root claim outcome in `update_all_roots` does not depend
on `worker_id` — two calls identical except for the worker id invoke the
weak-handle-root visitor equally often and leave the claim table in the same
state; the worker id only tags timing attribution and the deduplication
partition. -/
theorem C7_claim_worker_independent (env : Env) (w1 w2 fid : Nat) (st : ClaimState) :
    (((update_all_roots env w1 fid st).2).filter isWeakCall).length
        = (((update_all_roots env w2 fid st).2).filter isWeakCall).length
    ∧ (update_all_roots env w1 fid st).1 = (update_all_roots env w2 fid st).1 := by
  constructor
  · rw [update_filter_weakCall, update_filter_weakCall]
    split <;> rfl
  · rw [update_all_roots_state, update_all_roots_state]
    unfold process_all_roots
    exact strong_tasks_do_state_worker_indep env w1 w2 env.strongTasks _

/-- Claim C8: a candidate reference the liveness filter reports as dead is
never passed to the object-reference visitor, neither by the weak-root
processing nor by the deduplication-table pass of `update_all_roots`. -/
theorem C8_liveness_gating (env : Env) (w fid : Nat) (st : ClaimState) (r : Ref)
    (h : env.alive r = false) :
    (∀ f w0, Event.visitWeak f w0 r ∉ (update_all_roots env w fid st).2)
    ∧ (∀ f w0, Event.visitDedup f w0 r ∉ (update_all_roots env w fid st).2) := by
  constructor
  · intro f w0 hmem
    rcases mem_update_all_roots env w fid st _ hmem with h1 | h1 | h1 | h1 | h1 | h1
    · simp at h1
    · simp at h1
    · simp at h1
    · rcases mem_weak_oops_do env fid w _ h1 with h2 | ⟨r', h2, ha⟩
      · simp at h2
      · simp only [Event.visitWeak.injEq] at h2
        obtain ⟨-, -, rfl⟩ := h2
        simp [h] at ha
    · simp [isStrongEvent] at h1
    · rcases mem_parallel_oops_do env fid w _ h1 with h2 | ⟨r', h2, _⟩ <;> simp at h2
  · intro f w0 hmem
    rcases mem_update_all_roots env w fid st _ hmem with h1 | h1 | h1 | h1 | h1 | h1
    · simp at h1
    · simp at h1
    · simp at h1
    · rcases mem_weak_oops_do env fid w _ h1 with h2 | ⟨r', h2, _⟩ <;> simp at h2
    · simp [isStrongEvent] at h1
    · rcases mem_parallel_oops_do env fid w _ h1 with h2 | ⟨r', h2, ha⟩
      · simp at h2
      · simp only [Event.visitDedup.injEq] at h2
        obtain ⟨-, -, rfl⟩ := h2
        simp [h] at ha

/-- Concrete check of claim C8: reference 11 is reported dead by `envA`'s
filter and is never visited, although it is present in the weak table. -/
theorem C8_liveness_gating_witness :
    envA.alive 11 = false
    ∧ ((∀ f w0, Event.visitWeak f w0 11 ∉ (update_all_roots envA 0 0 ClaimState.init).2)
       ∧ (∀ f w0, Event.visitDedup f w0 11 ∉ (update_all_roots envA 0 0 ClaimState.init).2)) :=
  ⟨by decide, C8_liveness_gating envA 0 0 ClaimState.init 11 (by decide)⟩

/-- Claim C9: the weak-roots timing record is closed before `process_all_roots`
and the deduplication pass begin — after the weak segment no `JNIWeakRoots`
timing event occurs, nothing from strong-root or deduplication processing lies
inside the weak segment, and the weak branch writes exactly the
(`JNIWeakRoots`, worker) timing cell (one open and one close) on claim success
and no timing cell at all on claim failure. -/
theorem C9_weak_timer_scoped (env : Env) (w fid : Nat) (st : ClaimState) :
    ∃ weakSeg rest : List Event,
      (update_all_roots env w fid st).2 = Event.mkFilter fid w :: (weakSeg ++ rest)
      ∧ (∀ e ∈ rest, isJNIWeakTimer e = false)
      ∧ Event.strongCall w ∈ rest
      ∧ (∀ e ∈ weakSeg, isStrongEvent e = false ∧ isDedupEvent e = false)
      ∧ weakSeg.filter isTimerWrite
          = (if (is_task_claimed st SHENANDOAH_RP_PS_JNIHandles_weak_oops_do).1
              then []
              else [Event.timerStart Phase.JNIWeakRoots w,
                    Event.timerEnd Phase.JNIWeakRoots w]) := by
  refine ⟨(if (is_task_claimed st SHENANDOAH_RP_PS_JNIHandles_weak_oops_do).1
            then ([] : List Event)
            else Event.timerStart Phase.JNIWeakRoots w ::
              weak_oops_do env fid w ++ [Event.timerEnd Phase.JNIWeakRoots w]),
          (process_all_roots env w
              (is_task_claimed st SHENANDOAH_RP_PS_JNIHandles_weak_oops_do).2).2
            ++ (if env.dedupEnabled then parallel_oops_do env fid w else []),
          ?_, ?_, ?_, ?_, ?_⟩
  · rw [congrArg Prod.snd (update_all_roots_eq env w fid st)]
    simp [List.append_assoc]
  · intro e he
    rcases List.mem_append.1 he with he | he
    · exact (isStrongEvent_classifiers e
        (mem_process_all_roots_isStrong env w _ e he)).2.2.2.2.1
    · split at he
      · rcases mem_parallel_oops_do env fid w e he with h1 | ⟨r, h1, _⟩ <;>
          simp [h1, isJNIWeakTimer]
      · simp at he
  · exact List.mem_append_left _ (List.mem_cons_self _ _)
  · intro e he
    split at he
    · simp at he
    · rcases List.mem_cons.1 he with h1 | h1
      · simp [h1, isStrongEvent, isDedupEvent]
      rcases List.mem_append.1 h1 with h1 | h1
      · rcases mem_weak_oops_do env fid w e h1 with h2 | ⟨r, h2, _⟩ <;>
          simp [h2, isStrongEvent, isDedupEvent]
      · simp only [List.mem_singleton] at h1
        simp [h1, isStrongEvent, isDedupEvent]
  · split
    · rfl
    · have hwo : (weak_oops_do env fid w).filter isTimerWrite = [] :=
        filter_weak_oops_do_eq_nil env fid w _ rfl (fun _ => rfl)
      simp [List.filter_cons, List.filter_append, hwo, isTimerWrite]

/-- Claim C10: when the weak-root subtask is already claimed on entry, an
`update_all_roots` call is equal, state and trace alike, to the reference
program that constructs the liveness filter, runs `process_all_roots` with the
same arguments and then the deduplication pass when enabled. -/
theorem C10_skip_weak_equiv (env : Env) (w fid : Nat) (st : ClaimState)
    (h : SHENANDOAH_RP_PS_JNIHandles_weak_oops_do ∈ st.claimed) :
    update_all_roots env w fid st = skip_weak_run env w fid st := by
  rw [update_all_roots_eq, is_task_claimed_of_claimed _ _ h]
  rfl

/-- Concrete check of claim C10: with the weak subtask pre-claimed, worker 1's
call coincides with the weak-skipping reference program. -/
theorem C10_skip_weak_equiv_witness :
    SHENANDOAH_RP_PS_JNIHandles_weak_oops_do ∈ stAllClaimed.claimed
    ∧ update_all_roots envA 1 4 stAllClaimed = skip_weak_run envA 1 4 stAllClaimed :=
  ⟨by decide, C10_skip_weak_equiv envA 1 4 stAllClaimed (by decide)⟩

end Shenandoah
